import Mathlib

/-!
Verification of the `ambient-ember` core (perpetual-futures exchange on-chain
state) against its natural-language specification.  Rust source files are
shallowly embedded: `u64` values are `Nat` with explicit `% 2^64` where the
source wraps, `i64` values are `Int` restricted to the two's-complement range
with explicit wrapping where the source casts or overflows, fallible Rust
functions returning `Result` become `Except ProgramError`.
-/

deriving instance DecidableEq for Except

namespace AmbientEmber

/-- The Solana `ProgramError` variants used by the embedded code. -/
inductive ProgramError where
  | arithmeticOverflow
  | invalidArgument
  | insufficientFunds
  | invalidAccountData
  | custom (code : Nat)
  deriving DecidableEq, Repr

/-- `2^64`, the modulus of Rust `u64` arithmetic. -/
def u64Mod : Nat := 2 ^ 64

/-- `2^63`; `i64` values range over `[-i64Half, i64Half)`. -/
def i64Half : Nat := 2 ^ 63

/-- The `i64` range predicate: `i64::MIN ≤ x ≤ i64::MAX`. -/
def inI64 (x : Int) : Prop := -(i64Half : Int) ≤ x ∧ x < (i64Half : Int)

instance (x : Int) : Decidable (inI64 x) := by unfold inI64; infer_instance

/-- Two's-complement wrap of an integer into the `i64` range
(the behaviour of overflowing Rust `i64` arithmetic in release builds). -/
def wrapI64 (x : Int) : Int := (x + (i64Half : Int)) % (u64Mod : Int) - (i64Half : Int)

/-- Rust `u64 as i64`: bit-preserving cast, wrapping values `≥ 2^63`. -/
def castU64I64 (n : Nat) : Int := if n < i64Half then (n : Int) else (n : Int) - (u64Mod : Int)

/-- Rust `i64` checked addition (`checked_add`): errors on overflow. -/
def checkedAddI64 (a b : Int) : Except ProgramError Int :=
  if inI64 (a + b) then .ok (a + b) else .error .arithmeticOverflow

/-- Rust `u64` checked addition. -/
def checkedAddU64 (a b : Nat) : Except ProgramError Nat :=
  if a + b < u64Mod then .ok (a + b) else .error .arithmeticOverflow

/-- Rust `u64` checked multiplication. -/
def checkedMulU64 (a b : Nat) : Except ProgramError Nat :=
  if a * b < u64Mod then .ok (a * b) else .error .arithmeticOverflow

/-- Rust `u64` checked division: errors (only) on a zero divisor. -/
def checkedDivU64 (a b : Nat) : Except ProgramError Nat :=
  if b = 0 then .error .arithmeticOverflow else .ok (a / b)

end AmbientEmber

namespace AmbientEmber

/-- `src/core/src/state/math.rs`: `mul_qty_px_to_notional`.
`q` and `p` are `u64` (so the `u128` product cannot overflow); the scaled
result must fit back into `u64`. -/
def mul_qty_px_to_notional (qty px : Nat) : Except ProgramError Nat :=
  let scaled := qty * px / 100000000
  if u64Mod ≤ scaled then .error .arithmeticOverflow else .ok scaled

/-- `src/core/src/state/math.rs`: `mul_qty_px_signed`.
`q` and `p` are `i64` (so the `i128` product cannot overflow); the division
is Rust `i128` division, which truncates toward zero (`Int.tdiv`); the result
must fit back into `i64`. -/
def mul_qty_px_signed (qty px : Int) : Except ProgramError Int :=
  let scaled := Int.tdiv (qty * px) 100000000
  if inI64 scaled then .ok scaled else .error .arithmeticOverflow

end AmbientEmber

namespace AmbientEmber

/-- `src/core/src/state/order.rs`: `OrderSide`. -/
inductive OrderSide where
  | Bid
  | Ask
  deriving DecidableEq, Repr

/-- `src/core/src/state/position.rs`: `Fill` (side, qty `u64`, price `u64`). -/
structure Fill where
  side : OrderSide
  qty : Nat
  price : Nat
  deriving DecidableEq, Repr

/-- `src/core/src/state/position.rs`: `FillResult`. -/
structure FillResult where
  new_net_position : Int
  new_avg_entry_price : Nat
  realized_pnl : Int
  deriving DecidableEq, Repr

/-- The signed position change of a fill:
`Bid → fill.qty as i64`, `Ask → -(fill.qty as i64)` (both casts and the
negation use two's-complement wrapping, as in a Rust release build). -/
def positionChange (side : OrderSide) (qty : Nat) : Int :=
  match side with
  | .Bid => castU64I64 qty
  | .Ask => wrapI64 (-(castU64I64 qty))

/-- `src/core/src/state/position.rs`: `calculate_weighted_avg_price`.
All four inputs are `u64`; every product, sum and the division are checked. -/
def calculate_weighted_avg_price (existing_qty existing_price new_qty new_price : Nat) :
    Except ProgramError Nat := do
  let existing_value ← checkedMulU64 existing_qty existing_price
  let new_value ← checkedMulU64 new_qty new_price
  let total_value ← checkedAddU64 existing_value new_value
  let total_qty ← checkedAddU64 existing_qty new_qty
  checkedDivU64 total_value total_qty

/-- `src/core/src/state/position.rs`: `calculate_realized_pnl`.
`price_diff` is computed in `i64` from the `u64` prices (wrapping casts and
wrapping subtraction); `qty_closed as i64` likewise wraps. -/
def calculate_realized_pnl (was_long : Bool) (qty_closed : Nat) (avg_entry_price exit_price : Nat) :
    Except ProgramError Int :=
  let price_diff :=
    if was_long then wrapI64 (castU64I64 exit_price - castU64I64 avg_entry_price)
    else wrapI64 (castU64I64 avg_entry_price - castU64I64 exit_price)
  mul_qty_px_signed (castU64I64 qty_closed) price_diff

/-- `src/core/src/state/position.rs`: `process_fill`.
`current_net_position` is `i64`, `current_avg_entry_price` is `u64`. -/
def process_fill (current_net_position : Int) (current_avg_entry_price : Nat) (fill : Fill) :
    Except ProgramError FillResult := do
  let position_change := positionChange fill.side fill.qty
  let new_net_position ← checkedAddI64 current_net_position position_change
  if current_net_position = 0 then
    .ok ⟨new_net_position, fill.price, 0⟩
  else
    let is_increasing :=
      (current_net_position > 0 ∧ position_change > 0) ∨
        (current_net_position < 0 ∧ position_change < 0)
    if is_increasing then do
      let new_avg_entry_price ← calculate_weighted_avg_price
        current_net_position.natAbs current_avg_entry_price
        position_change.natAbs fill.price
      .ok ⟨new_net_position, new_avg_entry_price, 0⟩
    else do
      let position_closed :=
        if (current_net_position > 0 ∧ new_net_position ≤ 0) ∨
            (current_net_position < 0 ∧ new_net_position ≥ 0) then
          current_net_position.natAbs
        else
          position_change.natAbs
      let realized_pnl ← calculate_realized_pnl (current_net_position > 0) position_closed
        current_avg_entry_price fill.price
      let new_avg_entry_price :=
        if new_net_position = 0 then 0
        else if (current_net_position > 0 ∧ new_net_position < 0) ∨
            (current_net_position < 0 ∧ new_net_position > 0) then fill.price
        else current_avg_entry_price
      .ok ⟨new_net_position, new_avg_entry_price, realized_pnl⟩

/-- The position delta as the specification writes it:
`Δ = qty` for a Bid and `Δ = -qty` for an Ask, as an unbounded integer. -/
def specDelta (f : Fill) : Int :=
  if f.side = .Bid then (f.qty : Int) else -(f.qty : Int)

/-- Rust `i64::saturating_add`: clamps to the `i64` range. -/
def saturatingAddI64 (a b : Int) : Int :=
  if a + b < -(i64Half : Int) then -(i64Half : Int)
  else if (i64Half : Int) ≤ a + b then (i64Half : Int) - 1
  else a + b

/-- Rust release-mode `i64::abs()`: the absolute value, except that
`i64::MIN.abs()` wraps back to `i64::MIN`. -/
def absWrapI64 (x : Int) : Int :=
  if x = -(i64Half : Int) then x else x.natAbs

/-- Rust release-mode unary negation on `i64` (`-x` wraps at `i64::MIN`). -/
def negWrapI64 (x : Int) : Int := wrapI64 (-x)

/-- Rust `i64 as u64`: two's-complement reinterpretation. -/
def castI64U64 (x : Int) : Nat := (x % (u64Mod : Int)).toNat

/-- `src/core/src/state/cma.rs`: `MarginScope` (only variant `MarketIsolated`). -/
inductive MarginScope where
  | marketIsolated (id : Nat)
  deriving DecidableEq, Repr

/-- `src/core/src/state/cma.rs`: `MarginBucket`.  The `Pubkey` mint is
modelled as a `Nat` identifier and the `_pad` bytes are dropped; all `u64`
fields are `Nat`, `net_position` is `i64`, `user_set_im_bps` is `u16`. -/
structure MarginBucket where
  scope : MarginScope
  mint : Nat
  committed : Nat
  net_position : Int
  open_bid_qty : Nat
  open_ask_qty : Nat
  avg_entry_price : Nat
  user_set_im_bps : Nat
  deriving DecidableEq, Repr

/-- `src/core/src/state/cma.rs`: `MarginBucket::worst_case_position`.
`max(|net + open_bid|, |-net + open_ask|)` with `i64` saturating adds, a
release-mode `abs`, and an `as u64` cast of the larger value. -/
def worst_case_position (b : MarginBucket) : Nat :=
  let worst_long := saturatingAddI64 b.net_position (castU64I64 b.open_bid_qty)
  let worst_short := saturatingAddI64 (negWrapI64 b.net_position) (castU64I64 b.open_ask_qty)
  castI64U64 (max (absWrapI64 worst_long) (absWrapI64 worst_short))

/-- `src/core/src/state/cma.rs`: `MarginBucket::calc_equity`.
Unrealized PnL is `mul_qty_px_signed(|net|, price_diff)` with the `i64`
price difference; a non-negative PnL is added to `committed` with a checked
add, a loss is subtracted saturating at zero. -/
def calc_equity (b : MarginBucket) (last_mark_price : Nat) : Except ProgramError Nat := do
  let unrealized_pnl ←
    if b.net_position ≠ 0 then
      let price_diff :=
        if b.net_position > 0 then
          wrapI64 (castU64I64 last_mark_price - castU64I64 b.avg_entry_price)
        else
          wrapI64 (castU64I64 b.avg_entry_price - castU64I64 last_mark_price)
      mul_qty_px_signed (absWrapI64 b.net_position) price_diff
    else
      .ok 0
  if 0 ≤ unrealized_pnl then
    checkedAddU64 b.committed unrealized_pnl.toNat
  else
    .ok (b.committed - (-unrealized_pnl).toNat)

/-- `src/core/src/state/cma.rs`: `MarginBucket::calculate_uncommittable_amount`.
`equity.saturating_sub(required_collateral)` where
`required_collateral = notional(worst_case_position, mark) * im_bps / 10000`
(checked multiply and divide). -/
def calculate_uncommittable_amount (b : MarginBucket) (last_mark_price im_bps : Nat) :
    Except ProgramError Nat := do
  let worst_case_pos := worst_case_position b
  let notional ← mul_qty_px_to_notional worst_case_pos last_mark_price
  let step ← checkedMulU64 notional im_bps
  let required_collateral ← checkedDivU64 step 10000
  let equity ← calc_equity b last_mark_price
  .ok (equity - required_collateral)

/-- Borsh little-endian byte encoding of a `width`-byte unsigned integer. -/
def leBytes (width n : Nat) : List Nat :=
  (List.range width).map (fun i => n / 256 ^ i % 256)

/-- Borsh `u16` encoding. -/
def u16le (n : Nat) : List Nat := leBytes 2 n

/-- Borsh `u64` encoding. -/
def u64le (n : Nat) : List Nat := leBytes 8 n

/-- Borsh `u128` encoding. -/
def u128le (n : Nat) : List Nat := leBytes 16 n

/-- Borsh `i64` encoding: two's-complement little-endian. -/
def i64le (x : Int) : List Nat := leBytes 8 (x % (u64Mod : Int)).toNat

/-- Borsh `u8` encoding. -/
def u8Byte (n : Nat) : List Nat := [n % 256]

/-- Borsh `bool` encoding. -/
def boolByte (b : Bool) : List Nat := [if b then 1 else 0]

/-- Borsh `Option<T>` encoding: `0x00` for `None`, `0x01 ‖ enc(T)` for `Some`. -/
def optionEnc {α : Type} (enc : α → List Nat) : Option α → List Nat
  | none => [0]
  | some a => 1 :: enc a

/-- Borsh `Pubkey` encoding: the 32-byte key, modelled as a 32-byte
little-endian rendering of its numeric identifier. -/
def pubkeyEnc (pk : Nat) : List Nat := leBytes 32 pk

/-- `src/core/src/state/order.rs`: `TimeInForce` (declaration order
IOC, FOK, GTC, ALO, GTT). -/
inductive TimeInForce where
  | IOC
  | FOK
  | GTC
  | ALO
  | GTT (expiry : Nat)
  deriving DecidableEq, Repr

/-- Borsh encoding of `TimeInForce` (derive: 1-byte declaration-order
discriminant, then fields). -/
def tifEncode : TimeInForce → List Nat
  | .IOC => [0]
  | .FOK => [1]
  | .GTC => [2]
  | .ALO => [3]
  | .GTT t => 4 :: u64le t

/-- `src/core/src/permit.rs`: `HealthMetric` (Initial, Maintenance, RatioBps). -/
inductive HealthMetric where
  | Initial
  | Maintenance
  | RatioBps
  deriving DecidableEq, Repr

/-- Borsh encoding of `HealthMetric`. -/
def healthMetricEncode : HealthMetric → List Nat
  | .Initial => [0]
  | .Maintenance => [1]
  | .RatioBps => [2]

/-- `src/core/src/permit.rs`: `HealthFloor` (`metric`, `min: i64`). -/
structure HealthFloor where
  metric : HealthMetric
  min : Int
  deriving DecidableEq, Repr

/-- Borsh encoding of `HealthFloor`: fields in declaration order. -/
def healthFloorEncode (hf : HealthFloor) : List Nat :=
  healthMetricEncode hf.metric ++ i64le hf.min

/-- `src/core/src/permit.rs`: `PermitAction`, with constructors in the
source's declaration order: Place, CancelById, CancelByClientId, CancelAll,
Modify, Withdraw, SetLeverage, Noop, Faucet. -/
inductive PermitAction where
  | Place (market_id : Nat) (client_id : Nat) (side : Nat) (qty : Nat)
      (price : Option Nat) (tif : TimeInForce) (reduce_only : Bool)
      (trigger_price : Option Nat) (trigger_type : Nat)
      (health_floor : Option HealthFloor)
  | CancelById (market_id : Nat) (order_id : Nat)
  | CancelByClientId (market_id : Nat) (client_id : Nat)
  | CancelAll (market_id : Option Nat)
  | Modify (market_id : Nat) (cancel_order_id : Nat) (new_client_id : Nat)
      (side : Nat) (qty : Nat) (price : Option Nat) (tif : TimeInForce)
      (reduce_only : Bool) (trigger_price : Option Nat) (trigger_type : Nat)
      (health_floor : Option HealthFloor)
  | Withdraw (amount : Nat) (to_owner : Nat) (health_floor : Option HealthFloor)
  | SetLeverage (market_id : Nat) (target_leverage_bps : Nat)
      (health_floor : Option HealthFloor)
  | Noop
  | Faucet (market_id : Nat) (amount : Nat) (recipient : Nat)
  deriving DecidableEq, Repr

/-- Borsh encoding of `PermitAction` as produced by
`#[derive(BorshSerialize)]`: a 1-byte discriminant equal to the variant's
index in declaration order, followed by each field in declaration order. -/
def permitActionEncode : PermitAction → List Nat
  | .Place mid cid side qty price tif ro tp tt hf =>
      0 :: (u64le mid ++ u128le cid ++ u8Byte side ++ u64le qty ++
        optionEnc u64le price ++ tifEncode tif ++ boolByte ro ++
        optionEnc u64le tp ++ u8Byte tt ++ optionEnc healthFloorEncode hf)
  | .CancelById mid oid => 1 :: (u64le mid ++ u64le oid)
  | .CancelByClientId mid cid => 2 :: (u64le mid ++ u128le cid)
  | .CancelAll mid => 3 :: optionEnc u64le mid
  | .Modify mid coid ncid side qty price tif ro tp tt hf =>
      4 :: (u64le mid ++ u64le coid ++ u128le ncid ++ u8Byte side ++ u64le qty ++
        optionEnc u64le price ++ tifEncode tif ++ boolByte ro ++
        optionEnc u64le tp ++ u8Byte tt ++ optionEnc healthFloorEncode hf)
  | .Withdraw amount owner hf =>
      5 :: (u64le amount ++ pubkeyEnc owner ++ optionEnc healthFloorEncode hf)
  | .SetLeverage mid bps hf =>
      6 :: (u64le mid ++ u16le bps ++ optionEnc healthFloorEncode hf)
  | .Noop => [7]
  | .Faucet mid amount recipient =>
      8 :: (u64le mid ++ u64le amount ++ pubkeyEnc recipient)

/-- Outcome of running a Rust function that may panic: either a panic
(index out of bounds, remainder by zero, …) or a returned value. -/
inductive RustOutcome (α : Type) where
  | panicked
  | returns (val : α)
  deriving DecidableEq, Repr

/-- `src/core/src/permit.rs`: `NonceWindowState` (`signer` modelled as a
numeric id, `k : u8`, `top : Vec<u64>`, `bump : u8`). -/
structure NonceWindowState where
  signer : Nat
  k : Nat
  top : List Nat
  bump : Nat
  deriving DecidableEq, Repr

/-- Insert into a sorted list, keeping it sorted ascending. -/
def insertSorted (n : Nat) : List Nat → List Nat
  | [] => [n]
  | m :: t => if n ≤ m then n :: m :: t else m :: insertSorted n t

/-- Ascending insertion sort, modelling `Vec::sort_unstable` on `u64`. -/
def sortNat : List Nat → List Nat
  | [] => []
  | h :: t => insertSorted h (sortNat t)

/-- `src/core/src/permit.rs`: `NonceWindowState::insert_nonce`.
Rejects a nonce already in `top`; below capacity appends and re-sorts;
otherwise compares against `top[0]` (the smallest; a panic if `top` is empty,
which requires `k = 0`), rejecting `nonce ≤ smallest` and otherwise
overwriting `top[0]` and re-sorting. -/
def insert_nonce (w : NonceWindowState) (nonce : Nat) :
    RustOutcome (Except String NonceWindowState) :=
  if nonce ∈ w.top then .returns (.error "Nonce already used")
  else if w.top.length < w.k then
    .returns (.ok { w with top := sortNat (w.top ++ [nonce]) })
  else
    match w.top with
    | [] => .panicked
    | smallest :: rest =>
        if nonce ≤ smallest then .returns (.error "Nonce too small for window")
        else .returns (.ok { w with top := sortNat (nonce :: rest) })

/-- `src/core/src/state/order.rs`: `OrderTombstone` (all 26 variants, in
declaration order). -/
inductive OrderTombstone where
  | Empty
  | PreTrigger
  | Open
  | Filled
  | UserCancel
  | TriggerCancelCond1
  | TriggerCancelCond2
  | TriggerCancelCond3
  | LiquidatorMargin
  | AutoDeleverage
  | SystemHalt
  | Breaker
  | PositionLimits
  | MarketClosed
  | SelfTrade
  | TickRejected
  | PriceBandRejected
  | MinTradeRejected
  | OpenInterestCap
  | MaxPositionRejected
  | MaxOrderSizeRejected
  | CancelOnEntrySizing
  | InvalidPrice
  | InvalidQty
  | InvalidCond
  | ForceExpire
  | Admin
  | Error
  deriving DecidableEq, Repr

/-- `src/core/src/state/order.rs`: `OrderTombstone::is_alive`. -/
def OrderTombstone.is_alive : OrderTombstone → Bool
  | .Empty => true
  | .PreTrigger => true
  | .Open => true
  | _ => false

/-- `src/core/src/state/order.rs`: `PegPriceReference`. -/
inductive PegPriceReference where
  | OraclePrice
  deriving DecidableEq, Repr

/-- `src/core/src/state/order.rs`: `OrderPrice`. -/
inductive OrderPrice where
  | Market
  | Limit (price : Nat)
  | PeggedOffset (offset : Int) (ref : PegPriceReference)
  deriving DecidableEq, Repr

/-- `src/core/src/state/order.rs`: `OrderOriginator`. -/
inductive OrderOriginator where
  | User
  | Keeper
  | OffChainTrigger
  | Twap
  | Liquidation
  | System
  | Permit
  | VariantPlaceholder
  deriving DecidableEq, Repr

/-- `src/core/src/state/order.rs`: `PriceReference`. -/
inductive PriceReference where
  | MarkPrice
  | OraclePrice
  | SpotPrice
  | BidPrice
  | AskPrice
  | MidPrice
  | LastTradePrice
  deriving DecidableEq, Repr

/-- `src/core/src/state/order.rs`: `TriggerCondition`. -/
inductive TriggerCondition where
  | Off
  | PriceBelow (price : Nat) (ref : PriceReference)
  | PriceAbove (price : Nat) (ref : PriceReference)
  | OrderCancel (id : Nat)
  | OrderFill (id : Nat)
  | OrderPartialFill (id : Nat) (pct : Nat)
  | ImmediateOrCancelFail
  | FillOrKillFail
  | AddLiquidityOnlyFail
  | ReduceOnlyFail
  | Time (t : Nat)
  | VariantPlaceholder
  deriving DecidableEq, Repr

/-- `src/core/src/state/order.rs`: `TriggerEntrySize`. -/
inductive TriggerEntrySize where
  | PositionSizePercent (pct : Nat)
  | OrderSizePercent (pct : Nat)
  | FixedSize (size : Nat)
  deriving DecidableEq, Repr

/-- `src/core/src/state/order.rs`: `EventHistory` (the `_pad` byte arrays
are dropped). -/
structure EventHistory where
  entry_time : Int
  trigger_time : Int
  first_fill_time : Int
  last_fill_time : Int
  did_rest : Bool
  dead_time : Int
  take_volume : Nat
  priced_make_volume : Nat
  pegged_make_volume : Nat
  improve_volume : Nat
  avg_fill_price : Nat
  fees_booked : Nat
  deriving DecidableEq, Repr

/-- `src/core/src/state/order.rs`: `BuilderTag` (padding dropped). -/
structure BuilderTag where
  builder_id : Nat
  referrer_id : Nat
  deriving DecidableEq, Repr

/-- `src/core/src/state/order.rs`: `OrderDetails` (padding dropped). -/
structure OrderDetails where
  order_id : Nat
  side : OrderSide
  qty : Nat
  filled_qty : Nat
  price : OrderPrice
  origin : OrderOriginator
  entry_cond : TriggerCondition
  entry_cond_size : TriggerEntrySize
  cancel_cond : TriggerCondition
  cancel_cond_2 : TriggerCondition
  cancel_cond_3 : TriggerCondition
  tombstone : OrderTombstone
  event_history : EventHistory
  builder_tag : BuilderTag
  deriving DecidableEq, Repr

/-- `src/core/src/state/order.rs`: `OrderDetails::unfilled_qty`
(`qty.saturating_sub(filled_qty)`). -/
def OrderDetails.unfilled_qty (o : OrderDetails) : Nat := o.qty - o.filled_qty

/-- `src/core/src/state/order.rs`: `OrderFillResult`. -/
structure OrderFillResult where
  filled_qty : Nat
  weighted_avg_price : Nat
  is_fully_filled : Bool
  side : OrderSide
  deriving DecidableEq, Repr

/-- `src/core/src/state/order.rs`: `OrderDetails::process_fill`.
Rejects dead orders and overfills; otherwise accumulates `filled_qty`
(unchecked `u64` addition, hence the wrap), computes the `u128` weighted
average fill price truncated back to `u64`, marks the order `Filled` when
`filled_qty ≥ qty`, and maintains first/last fill times.  The mutation of
`self` is modelled by returning the updated order next to the result. -/
def OrderDetails.process_fill (o : OrderDetails) (fill_qty fill_price : Nat)
    (unix_timestamp : Int) : Except String (OrderDetails × OrderFillResult) :=
  if ¬ o.tombstone.is_alive then .error "Cannot fill a dead order"
  else if fill_qty > o.unfilled_qty then
    .error "Fill quantity exceeds remaining order quantity"
  else
    let new_filled_qty := (o.filled_qty + fill_qty) % u64Mod
    let weighted_avg_price :=
      if o.filled_qty = 0 then fill_price
      else (fill_qty * fill_price + o.filled_qty * o.event_history.avg_fill_price)
        / new_filled_qty % u64Mod
    let is_fully_filled := decide (o.qty ≤ new_filled_qty)
    let o' : OrderDetails :=
      { o with
        filled_qty := new_filled_qty,
        tombstone := if is_fully_filled then .Filled else o.tombstone,
        event_history :=
          { o.event_history with
            avg_fill_price := weighted_avg_price,
            first_fill_time :=
              if o.event_history.first_fill_time = 0 then unix_timestamp
              else o.event_history.first_fill_time,
            last_fill_time := unix_timestamp } }
    .ok (o', ⟨fill_qty, weighted_avg_price, is_fully_filled, o.side⟩)

/-- `src/core/src/storage/order_detail_storage.rs`: `OrderDetailStorageError`. -/
inductive OrderDetailStorageError where
  | orderNotFound
  | invalidOrderId
  | accountTooSmall
  | invalidIndex
  deriving DecidableEq, Repr

/-- `src/core/src/storage/order_detail_storage.rs`: `OrderDetailStorage`. -/
structure OrderDetailStorage where
  capacity : Nat
  total_inserted : Nat
  orders : List OrderDetails
  deriving DecidableEq, Repr

/-- `src/core/src/storage/order_detail_storage.rs`:
`OrderDetailStorage::find_order_index` — linear scan of
`orders[0 .. total_inserted)` for the order id. -/
def find_order_index (st : OrderDetailStorage) (order_id : Nat) : Option Nat :=
  (List.range st.total_inserted).find? fun i =>
    match st.orders[i]? with
    | some o => o.order_id == order_id
    | none => false

/-- The in-place mutation performed by `fill_order` on the located order:
`filled_qty += fill_qty` (unchecked `u64` addition), and tombstone `Filled`
once `filled_qty ≥ qty`. -/
def fill_order_update (o : OrderDetails) (fill_qty : Nat) : OrderDetails :=
  let nf := (o.filled_qty + fill_qty) % u64Mod
  { o with
    filled_qty := nf,
    tombstone := if o.qty ≤ nf then .Filled else o.tombstone }

/-- `src/core/src/storage/order_detail_storage.rs`:
`OrderDetailStorage::fill_order` — look up by id, then mutate with
`fill_order_update`. -/
def fill_order (st : OrderDetailStorage) (order_id fill_qty : Nat) :
    Except OrderDetailStorageError OrderDetailStorage :=
  match find_order_index st order_id with
  | none => .error .orderNotFound
  | some i =>
      match st.orders[i]? with
      | none => .error .invalidIndex  -- dead code: find_order_index indexed this slot
      | some o => .ok { st with orders := st.orders.set i (fill_order_update o fill_qty) }

/-- `src/core/src/state/cma.rs`: `TokenBalance` (mint modelled as a numeric
id, padding dropped). -/
structure TokenBalance where
  mint : Nat
  amount : Nat
  deriving DecidableEq, Repr

/-- `src/core/src/state/cma.rs`: `CrossMarginAccountV1` (version and padding
dropped, `user` modelled as a numeric id). -/
structure CrossMarginAccountV1 where
  user : Nat
  balances : List TokenBalance
  buckets : List MarginBucket
  deriving DecidableEq, Repr

/-- `src/core/src/state/cma.rs`: `CmaFillResult`. -/
structure CmaFillResult where
  new_net_position : Int
  old_net_position : Int
  realized_pnl_banked : Int
  deriving DecidableEq, Repr

/-- The bucket lookup performed by `CrossMarginAccountV1::process_fill`:
the first bucket whose scope is `MarketIsolated(market_id)` with the given
mint, returned as an index into `buckets`. -/
def findBucketIdx (cma : CrossMarginAccountV1) (market_id mint : Nat) : Option Nat :=
  (List.range cma.buckets.length).find? fun i =>
    match cma.buckets[i]? with
    | some b => b.scope == .marketIsolated market_id && b.mint == mint
    | none => false

/-- `src/core/src/state/cma.rs`: `CrossMarginAccountV1::process_fill`.
Locates the market bucket (`InvalidAccountData` if absent), runs the pure
position algebra, writes back position and average entry, decrements the
side's open quantity (saturating), then applies realized PnL to `committed`:
profit with a checked add, loss clamped at zero.  The in-place mutation is
modelled by returning the updated account. -/
def CrossMarginAccountV1.process_fill (cma : CrossMarginAccountV1) (market_id : Nat)
    (side : OrderSide) (qty price : Nat) (mint : Nat) :
    Except ProgramError (CrossMarginAccountV1 × CmaFillResult) :=
  match findBucketIdx cma market_id mint with
  | none => .error .invalidAccountData
  | some i =>
    match cma.buckets[i]? with
    | none => .error .invalidAccountData  -- dead code: findBucketIdx indexed this slot
    | some bucket => do
      let fill : Fill := ⟨side, qty, price⟩
      let fill_result ← AmbientEmber.process_fill bucket.net_position bucket.avg_entry_price fill
      let old_net_position := bucket.net_position
      let b1 : MarginBucket :=
        { bucket with
          net_position := fill_result.new_net_position,
          avg_entry_price := fill_result.new_avg_entry_price }
      let b2 : MarginBucket :=
        match side with
        | .Bid => { b1 with open_bid_qty := b1.open_bid_qty - qty }
        | .Ask => { b1 with open_ask_qty := b1.open_ask_qty - qty }
      let committed' ←
        if fill_result.realized_pnl ≠ 0 then
          if fill_result.realized_pnl > 0 then
            checkedAddU64 b2.committed fill_result.realized_pnl.toNat
          else
            let loss := (-fill_result.realized_pnl).toNat
            if b2.committed < loss then .ok 0
            else .ok (b2.committed - loss)
        else .ok b2.committed
      let b3 : MarginBucket := { b2 with committed := committed' }
      .ok ({ cma with buckets := cma.buckets.set i b3 },
        ⟨b3.net_position, old_net_position, fill_result.realized_pnl⟩)

/-- `src/core/src/state/market.rs`: `MarketStateV1` (version, `fill_offset`,
`current_log_page` and padding dropped; pubkeys modelled as numeric ids). -/
structure MarketStateV1 where
  oracle : Nat
  base_token : Nat
  tick_size : Nat
  last_bid : Nat
  last_ask : Nat
  last_mark_price : Nat
  last_traded_price : Nat
  open_interest : Int
  clearing_net_pos : Int
  clearing_entry_price : Nat
  clearing_real_pnl : Int
  im_bps : Nat
  mm_bps : Nat
  min_order_size : Nat
  max_order_size : Nat
  max_oi_size : Nat
  max_user_oi_size : Nat
  deriving DecidableEq, Repr

/-- `src/core/src/state/cma.rs`: `MarginBucket::worst_case_direction`.
Bid: `net_position + open_bid_qty as i64`; Ask: `-net_position +
open_ask_qty as i64` (plain `i64` arithmetic, wrapping in release builds;
the Rust `Ok` wrapper is vacuous since no path errors). -/
def worst_case_direction (b : MarginBucket) (side : OrderSide) : Int :=
  match side with
  | .Bid => wrapI64 (b.net_position + castU64I64 b.open_bid_qty)
  | .Ask => wrapI64 (negWrapI64 b.net_position + castU64I64 b.open_ask_qty)

/-- `src/core/src/state/cma.rs`: `MarginBucket::worst_case_direction_add`.
`i64::try_from(add_qty)` errors above `i64::MAX`, the addition is checked,
and the sum is clamped at 0 and cast back to `u64`. -/
def worst_case_direction_add (b : MarginBucket) (side : OrderSide) (add_qty : Nat) :
    Except ProgramError Nat := do
  let usage := worst_case_direction b side
  let add_qty_i64 ←
    if add_qty < i64Half then (.ok (add_qty : Int) : Except ProgramError Int)
    else .error .arithmeticOverflow
  let sum ← checkedAddI64 usage add_qty_i64
  .ok (max sum 0).toNat

/-- `src/core/src/state/cma.rs`: `MarginBucket::calc_required_margin`.
`notional(usage, mark) * max(mkt_im_bps, user_set_im_bps) / 10000` with
checked multiply and divide. -/
def calc_required_margin (b : MarginBucket) (last_mark_price mkt_im_bps usage : Nat) :
    Except ProgramError Nat := do
  let effective_im_bps := max mkt_im_bps b.user_set_im_bps
  let notional_value ← mul_qty_px_to_notional usage last_mark_price
  let step ← checkedMulU64 notional_value effective_im_bps
  checkedDivU64 step 10000

/-- `src/core/src/state/cma.rs`: `MarginBucket::calc_required_margin_mkt`. -/
def calc_required_margin_mkt (b : MarginBucket) (market_state : MarketStateV1) (usage : Nat) :
    Except ProgramError Nat :=
  calc_required_margin b market_state.last_mark_price market_state.im_bps usage

/-- `src/core/src/state/cma.rs`: `MarginBucket::update_open_order_qty`:
checked addition into the side's open quantity. -/
def update_open_order_qty (b : MarginBucket) (side : OrderSide) (qty : Nat) :
    Except ProgramError MarginBucket :=
  match side with
  | .Bid => (checkedAddU64 b.open_bid_qty qty).bind fun x => .ok { b with open_bid_qty := x }
  | .Ask => (checkedAddU64 b.open_ask_qty qty).bind fun x => .ok { b with open_ask_qty := x }

/-- `src/core/src/state/cma.rs`:
`MarginBucket::validate_and_update_open_order_qty`: open-interest cap check
(`InvalidArgument`), then margin sufficiency (`InsufficientFunds`), then the
reservation update. -/
def validate_and_update_open_order_qty (b : MarginBucket) (market_state : MarketStateV1)
    (side : OrderSide) (qty : Nat) : Except ProgramError MarginBucket := do
  let worst_case_usage ← worst_case_direction_add b side qty
  if market_state.max_user_oi_size > 0 ∧ worst_case_usage > market_state.max_user_oi_size then
    .error .invalidArgument
  else do
    let required_margin ← calc_required_margin_mkt b market_state worst_case_usage
    let equity ← calc_equity b market_state.last_mark_price
    if equity < required_margin then .error .insufficientFunds
    else update_open_order_qty b side qty

/-- `src/core/src/storage/zero_copy_market_order_log.rs`:
`ZeroCopyOrderLogError`. -/
inductive ZeroCopyOrderLogError where
  | logFull
  | accountTooSmall
  | corruptedData
  | invalidAlignment
  | unsupportedVersion
  | invalidCapacity
  | invalidEntrySize
  deriving DecidableEq, Repr

/-- `src/core/src/storage/zero_copy_market_order_log.rs`:
`ORDER_DETAILS_PADDING`. -/
def ORDER_DETAILS_PADDING : Nat := 120

/-- The state of a `ZeroCopyMarketOrderLog` account: the
`MarketOrderLogHeader` fields (`_pad` arrays dropped) plus the bytes of the
account after the fixed-size header (`body = data[HEADER_SIZE ..]`, one byte
per list element). -/
structure MarketOrderLogState where
  version : Nat
  market_id : Nat
  page : Nat
  capacity : Nat
  entry_count : Nat
  entry_size : Nat
  body : List Nat
  deriving DecidableEq, Repr

/-- In-place write of `ser` into `body` starting at `offset`
(`copy_from_slice`; callers guarantee `offset + ser.length ≤ body.length`). -/
def writeBytes (body : List Nat) (offset : Nat) (ser : List Nat) : List Nat :=
  body.take offset ++ ser ++ body.drop (offset + ser.length)

/-- `src/core/src/storage/zero_copy_market_order_log.rs`: the bounds checks
of `get_entry_data_mut(idx, size)`, relative to the post-header body:
index beyond capacity, serialized size beyond `entry_size + 120`, or a write
end beyond the account. -/
def get_entry_data_bounds (s : MarketOrderLogState) (idx size : Nat) :
    Option ZeroCopyOrderLogError :=
  if s.capacity ≤ idx then some .corruptedData
  else if s.entry_size + ORDER_DETAILS_PADDING < size then some .invalidEntrySize
  else if s.body.length < idx * s.entry_size + size then some .accountTooSmall
  else none

/-- `src/core/src/storage/zero_copy_market_order_log.rs`:
`append_log_entry`, acting on the Borsh bytes `ser` of the entry (the
serialization `entry.try_to_vec()` is abstracted as the byte-list argument).
If the log is full it fails with `LogFull` before touching any byte;
otherwise the entry bytes are written at offset `entry_count * entry_size`
into the body (after the bounds checks of `get_entry_data_mut`) and only
then is `entry_count` incremented.  Errors leave the state unchanged, as in
the source, where no byte is written on any error path. -/
def append_log_entry (s : MarketOrderLogState) (ser : List Nat) :
    MarketOrderLogState × Option ZeroCopyOrderLogError :=
  if s.entry_count ≥ s.capacity then (s, some .logFull)
  else
    match get_entry_data_bounds s s.entry_count ser.length with
    | some e => (s, some e)
    | none =>
        ({ s with
            body := writeBytes s.body (s.entry_count * s.entry_size) ser,
            entry_count := s.entry_count + 1 }, none)

/-- `src/core/src/state/market.rs`: `MarketStateV1::validate_order_conformance`.
Checks minimum size, maximum size, tick alignment (limit orders only:
`!is_mkt_order && price % tick_size != 0` short-circuits, so the remainder
is evaluated only when `price ≠ 0` — and Rust's `%` panics on a zero
divisor), and a nonzero mark price. -/
def validate_order_conformance (m : MarketStateV1) (qty price : Nat) :
    RustOutcome (Except ProgramError Unit) :=
  if qty < m.min_order_size then .returns (.error .invalidArgument)
  else if m.max_order_size > 0 ∧ qty > m.max_order_size then .returns (.error .invalidArgument)
  else if price ≠ 0 then
    if m.tick_size = 0 then .panicked
    else if price % m.tick_size ≠ 0 then .returns (.error .invalidArgument)
    else if m.last_mark_price = 0 then .returns (.error .invalidArgument)
    else .returns (.ok ())
  else if m.last_mark_price = 0 then .returns (.error .invalidArgument)
  else .returns (.ok ())

/-- `src/core/src/storage/order_storage.rs`: `OrderStorageError`. -/
inductive OrderStorageError where
  | storageFull
  | orderNotFound
  | duplicateOrder
  | invalidCapacity
  | invalidIndex
  deriving DecidableEq, Repr

/-- `src/core/src/state/order.rs`: `OrderMarker` (user modelled as a numeric
id, padding dropped). -/
structure OrderMarker where
  user : Nat
  order_id : Nat
  order_version : Nat
  order_page : Nat
  deriving DecidableEq, Repr

/-- `src/core/src/storage/order_storage.rs`: `OrderStorage`.  The free-slot
stack is a `Vec<usize>`: `push` appends at the end, `pop` removes the last
element, so the top of the stack is the list's last element. -/
structure OrderStorage where
  capacity : Nat
  count : Nat
  free_slots : List Nat
  next_free_slot : Nat
  orders : List (Option OrderMarker)
  deriving DecidableEq, Repr

/-- `src/core/src/storage/order_storage.rs`: `OrderStorage::insert`.
Pops a free slot if available, else allocates `next_free_slot` while below
capacity, else fails `StorageFull`; the chosen slot is overwritten with the
marker (no duplicate check) and `count` is incremented.  The slot-index
write `orders[slot] = Some(order)` assumes the index is in bounds, as every
reachable state guarantees. -/
def OrderStorage.insert (s : OrderStorage) (order : OrderMarker) :
    Except OrderStorageError (OrderStorage × Nat) :=
  match s.free_slots.getLast? with
  | some free_index =>
      .ok ({ s with
          free_slots := s.free_slots.dropLast,
          orders := s.orders.set free_index (some order),
          count := s.count + 1 }, free_index)
  | none =>
      if s.next_free_slot < s.capacity then
        .ok ({ s with
            next_free_slot := s.next_free_slot + 1,
            orders := s.orders.set s.next_free_slot (some order),
            count := s.count + 1 }, s.next_free_slot)
      else .error .storageFull

/-- Reachable-state invariant of the free-list registry: the orders array
has exactly `capacity` slots, `next_free_slot` never exceeds capacity,
free-list entries point at empty in-bounds slots, and every slot at or past
`next_free_slot` is empty. -/
def OrderStorageInv (s : OrderStorage) : Prop :=
  s.orders.length = s.capacity
  ∧ s.next_free_slot ≤ s.capacity
  ∧ (∀ i ∈ s.free_slots, i < s.capacity ∧ s.orders[i]? = some none)
  ∧ (∀ j, s.next_free_slot ≤ j → j < s.capacity → s.orders[j]? = some none)

theorem castU64I64_of_lt {n : Nat} (h : n < i64Half) : castU64I64 n = n := by
  simp [castU64I64, h]

theorem wrapI64_of_inI64 {x : Int} (h : inI64 x) : wrapI64 x = x := by
  obtain ⟨h1, h2⟩ := h
  have hlo : (0 : Int) ≤ x + (i64Half : Int) := by linarith
  have hhi : x + (i64Half : Int) < (u64Mod : Int) := by
    have : (u64Mod : Nat) = 2 * i64Half := by decide
    rw [this]
    push_cast
    linarith
  rw [wrapI64, Int.emod_eq_of_lt hlo hhi]
  ring

theorem positionChange_of_lt {side : OrderSide} {qty : Nat} (h : qty < i64Half) :
    positionChange side qty = (if side = .Bid then (qty : Int) else -(qty : Int)) := by
  cases side
  · simp [positionChange, castU64I64_of_lt h]
  · have hq0 : (0 : Int) ≤ (qty : Int) := Int.ofNat_nonneg qty
    have : inI64 (-(qty : Int)) := by
      constructor
      · have : (qty : Int) ≤ (i64Half : Int) := le_of_lt (by exact_mod_cast h)
        linarith
      · have : (0 : Int) < (i64Half : Int) := by decide
        linarith
    simp [positionChange, castU64I64_of_lt h, wrapI64_of_inI64 this]

@[simp]
theorem except_bind_ok {ε α β : Type} (a : α) (g : α → Except ε β) :
    (Except.ok a >>= g) = g a := rfl

@[simp]
theorem except_bind_error {ε α β : Type} (e : ε) (g : α → Except ε β) :
    ((Except.error e : Except ε α) >>= g) = .error e := rfl

theorem calculate_weighted_avg_price_ok {eq ep nq np a : Nat}
    (h : calculate_weighted_avg_price eq ep nq np = .ok a) :
    a = (eq * ep + nq * np) / (eq + nq) := by
  unfold calculate_weighted_avg_price checkedMulU64 checkedAddU64 checkedDivU64 at h
  split_ifs at h <;> simp_all <;> split_ifs at h <;> simp_all

theorem calculate_realized_pnl_eq {wl : Bool} {qc avg price : Nat}
    (hqc : qc < i64Half) (ha : avg < i64Half) (hp : price < i64Half) :
    calculate_realized_pnl wl qc avg price =
      mul_qty_px_signed qc (if wl then (price : Int) - avg else (avg : Int) - price) := by
  have hhalf : (0 : Int) < (i64Half : Int) := by decide
  have h1 : inI64 ((price : Int) - avg) := by
    constructor
    · have : (avg : Int) < (i64Half : Int) := by exact_mod_cast ha
      have : (0 : Int) ≤ (price : Int) := Int.ofNat_nonneg price
      omega
    · have : (price : Int) < (i64Half : Int) := by exact_mod_cast hp
      have : (0 : Int) ≤ (avg : Int) := Int.ofNat_nonneg avg
      omega
  have h2 : inI64 ((avg : Int) - price) := by
    constructor
    · have : (price : Int) < (i64Half : Int) := by exact_mod_cast hp
      have : (0 : Int) ≤ (avg : Int) := Int.ofNat_nonneg avg
      omega
    · have : (avg : Int) < (i64Half : Int) := by exact_mod_cast ha
      have : (0 : Int) ≤ (price : Int) := Int.ofNat_nonneg price
      omega
  unfold calculate_realized_pnl
  cases wl <;>
    simp [castU64I64_of_lt hqc, castU64I64_of_lt ha, castU64I64_of_lt hp,
      wrapI64_of_inI64 h1, wrapI64_of_inI64 h2]

/-- C1 (amended): position algebra of `process_fill`, restricted to fills and
states whose magnitudes lie below `i64::MAX` (beyond which the source's
`u64 as i64` casts wrap) and conditioned on the checked interior arithmetic
succeeding.  `new_net = net + Δ` on every success, an out-of-range `net + Δ`
is an arithmetic-overflow error, a fill from `net = 0` returns
`(Δ, price, 0)`, a same-direction increase returns the truncating weighted
average entry price with zero realized PnL, and a reduce/close/flip returns
`realized_pnl = mul_qty_px_signed(min(|Δ|, |net|), price_diff)` with the
claimed `new_avg_entry` (unchanged on a pure reduce, `0` on a full close,
`price` on a flip). -/
theorem except_bind_ok_inv {e : Type} {a b : Type} {x : Except e a} {g : a → Except e b}
    {v : b} (h : (x >>= g) = .ok v) : ∃ w, x = .ok w ∧ g w = .ok v := by
  cases x with
  | ok w => exact ⟨w, rfl, h⟩
  | error err => simp at h

theorem c1_process_fill_position_algebra (net : Int) (avg : Nat) (f : Fill)
    (hnet : net.natAbs < i64Half) (hq : f.qty < i64Half)
    (havg : avg < i64Half) (hp : f.price < i64Half) :
    (∀ r, process_fill net avg f = .ok r → r.new_net_position = net + specDelta f)
    ∧ (¬ inI64 (net + specDelta f) →
        process_fill net avg f = .error .arithmeticOverflow)
    ∧ (net = 0 → process_fill net avg f = .ok ⟨specDelta f, f.price, 0⟩)
    ∧ (((0 < net ∧ f.side = .Bid) ∨ (net < 0 ∧ f.side = .Ask)) → 0 < f.qty →
        ∀ r, process_fill net avg f = .ok r →
          r.new_avg_entry_price = (net.natAbs * avg + f.qty * f.price) / (net.natAbs + f.qty)
          ∧ r.realized_pnl = 0)
    ∧ (net ≠ 0 →
        ¬(((0 < net ∧ f.side = .Bid) ∨ (net < 0 ∧ f.side = .Ask)) ∧ 0 < f.qty) →
        ∀ r, process_fill net avg f = .ok r →
          mul_qty_px_signed ((min f.qty net.natAbs : Nat) : Int)
              (if net > 0 then (f.price : Int) - (avg : Int)
               else (avg : Int) - (f.price : Int))
            = .ok r.realized_pnl
          ∧ r.new_avg_entry_price =
              (if net + specDelta f = 0 then 0
               else if (net > 0 ∧ net + specDelta f < 0) ∨ (net < 0 ∧ net + specDelta f > 0)
               then f.price else avg)) := by
  have hpc : positionChange f.side f.qty = specDelta f := by
    rw [positionChange_of_lt hq]; rfl
  have hΔabs : (specDelta f).natAbs = f.qty := by
    unfold specDelta; split <;> simp
  by_cases hin : inI64 (net + specDelta f)
  · -- the checked addition succeeds
    have hadd : checkedAddI64 net (specDelta f) = .ok (net + specDelta f) := by
      simp [checkedAddI64, hin]
    refine ⟨?_, ?_, ?_, ?_, ?_⟩
    · -- new_net on every Ok
      intro r hr
      obtain ⟨rn, ra, rp⟩ := r
      unfold process_fill at hr
      simp only [hpc, hadd, except_bind_ok] at hr
      split_ifs at hr
      all_goals
        first
        | (simp only [Except.ok.injEq, FillResult.mk.injEq] at hr
           exact hr.1.symm)
        | (obtain ⟨x, hx, hk⟩ := except_bind_ok_inv hr
           simp only [Except.ok.injEq, FillResult.mk.injEq] at hk
           exact hk.1.symm)
    · intro hcontra; exact absurd hin hcontra
    · -- opening from zero
      intro h0
      subst h0
      unfold process_fill
      simp [hpc, hadd]
    · -- same-direction increase
      intro hdir hq0 r hr
      obtain ⟨rn, ra, rp⟩ := r
      have hinc : (net > 0 ∧ specDelta f > 0) ∨ (net < 0 ∧ specDelta f < 0) := by
        rcases hdir with ⟨hn, hs⟩ | ⟨hn, hs⟩
        · left
          refine ⟨hn, ?_⟩
          simp only [specDelta, hs, if_pos]
          exact_mod_cast hq0
        · right
          refine ⟨hn, ?_⟩
          have hΔ : specDelta f = -(f.qty : Int) := by simp [specDelta, hs]
          rw [hΔ]
          have : (0 : Int) < (f.qty : Int) := by exact_mod_cast hq0
          omega
      have hne : ¬ net = 0 := by rcases hinc with ⟨hn, _⟩ | ⟨hn, _⟩ <;> omega
      unfold process_fill at hr
      simp only [hpc, hadd, except_bind_ok] at hr
      rw [if_neg hne, if_pos hinc] at hr
      obtain ⟨x, hx, hk⟩ := except_bind_ok_inv hr
      have hxval := calculate_weighted_avg_price_ok hx
      rw [hΔabs] at hxval
      simp only [Except.ok.injEq, FillResult.mk.injEq] at hk
      exact ⟨by rw [← hk.2.1, hxval], hk.2.2.symm⟩
    · -- reduce, close, or flip
      intro hne0 hnotinc r hr
      obtain ⟨rn, ra, rp⟩ := r
      have hΔnotpos : ¬ ((net > 0 ∧ specDelta f > 0) ∨ (net < 0 ∧ specDelta f < 0)) := by
        intro hcon
        apply hnotinc
        rcases hcon with ⟨hn, hd⟩ | ⟨hn, hd⟩
        · have hsb : f.side = .Bid := by
            cases hs : f.side
            · rfl
            · exfalso
              have hΔ : specDelta f = -(f.qty : Int) := by simp [specDelta, hs]
              rw [hΔ] at hd
              have : (0 : Int) ≤ (f.qty : Int) := Int.ofNat_nonneg f.qty
              omega
          have hΔ : specDelta f = (f.qty : Int) := by simp [specDelta, hsb]
          rw [hΔ] at hd
          exact ⟨Or.inl ⟨hn, hsb⟩, by exact_mod_cast hd⟩
        · have hsa : f.side = .Ask := by
            cases hs : f.side
            · exfalso
              have hΔ : specDelta f = (f.qty : Int) := by simp [specDelta, hs]
              rw [hΔ] at hd
              have : (0 : Int) ≤ (f.qty : Int) := Int.ofNat_nonneg f.qty
              omega
            · rfl
          have hΔ : specDelta f = -(f.qty : Int) := by simp [specDelta, hsa]
          rw [hΔ] at hd
          have : (0 : Int) < (f.qty : Int) := by omega
          exact ⟨Or.inr ⟨hn, hsa⟩, by exact_mod_cast this⟩
      unfold process_fill at hr
      simp only [hpc, hadd, except_bind_ok] at hr
      rw [if_neg hne0, if_neg hΔnotpos] at hr
      obtain ⟨pnl, hpnl, hk⟩ := except_bind_ok_inv hr
      have hclosed :
          (if (net > 0 ∧ net + specDelta f ≤ 0) ∨ (net < 0 ∧ net + specDelta f ≥ 0)
           then net.natAbs else (specDelta f).natAbs) = min f.qty net.natAbs := by
        rcases lt_trichotomy net 0 with hlt | heq | hgt
        · have hdge : 0 ≤ specDelta f := by
            by_contra hcon
            push_neg at hcon
            exact hΔnotpos (Or.inr ⟨hlt, hcon⟩)
          split_ifs with hcl <;> omega
        · exact absurd heq hne0
        · have hdle : specDelta f ≤ 0 := by
            by_contra hcon
            push_neg at hcon
            exact hΔnotpos (Or.inl ⟨hgt, hcon⟩)
          split_ifs with hcl <;> omega
      rw [hclosed] at hpnl
      have hql : min f.qty net.natAbs < i64Half := by omega
      rw [calculate_realized_pnl_eq hql havg hp] at hpnl
      simp only [decide_eq_true_eq] at hpnl
      simp only [Except.ok.injEq, FillResult.mk.injEq] at hk
      refine ⟨?_, ?_⟩
      · rw [← hk.2.2]
        exact hpnl
      · exact hk.2.1.symm
  · -- the checked addition overflows
    have hadd : checkedAddI64 net (specDelta f) = .error .arithmeticOverflow := by
      simp only [checkedAddI64, if_neg hin]
    have herr : process_fill net avg f = .error .arithmeticOverflow := by
      unfold process_fill
      simp only [hpc, hadd, except_bind_error]
    refine ⟨?_, fun _ => herr, ?_, ?_, ?_⟩
    · intro r hr; rw [herr] at hr; cases hr
    · intro h0
      exfalso
      apply hin
      rw [h0, zero_add]
      have habs : (specDelta f).natAbs < i64Half := by
        have : (specDelta f).natAbs = f.qty := by unfold specDelta; split <;> simp
        omega
      constructor <;> omega
    · intro _ _ r hr; rw [herr] at hr; cases hr
    · intro _ _ r hr; rw [herr] at hr; cases hr

/-- C1 (counterexample): at `net = 0` and a Bid of `qty = 2^63`, the source's
`fill.qty as i64` cast wraps, so `process_fill` succeeds with
`new_net = -2^63` instead of `net + qty = 2^63` (or an overflow error) as the
claim states for every fill. -/
theorem c1_counterexample :
    process_fill 0 0 ⟨.Bid, 2 ^ 63, 5⟩ = .ok ⟨-(2 ^ 63 : Int), 5, 0⟩
    ∧ ((0 : Int) + (2 ^ 63 : Nat) ≠ -(2 ^ 63 : Int)) := by
  constructor
  · decide
  · decide

/-- C1 (witness): the amended theorem applied to the concrete opening fill
`net = 0`, Bid 100 @ 50000. -/
theorem c1_witness :
    (100 : Nat) < i64Half ∧
    process_fill 0 0 ⟨.Bid, 100, 50000⟩ = .ok ⟨100, 50000, 0⟩ := by
  refine ⟨by decide, ?_⟩
  have h := (c1_process_fill_position_algebra 0 0 ⟨.Bid, 100, 50000⟩
    (by decide) (by decide) (by decide) (by decide)).2.2.1 rfl
  simpa [specDelta] using h

/-- C2 (counterexample): a bucket with `committed = 0`, a long position of
`10^8` base units entered at `50_000`, valued at mark `60_000` with
`im_bps = 1000`, has positive unrealized PnL, and
`calculate_uncommittable_amount` returns `Ok 4000 > committed = 0`. -/
theorem c2_counterexample :
    calculate_uncommittable_amount
        ⟨.marketIsolated 1, 0, 0, 100000000, 0, 0, 50000, 0⟩ 60000 1000 = .ok 4000
    ∧ ¬ (4000 ≤ (⟨.marketIsolated 1, 0, 0, 100000000, 0, 0, 50000, 0⟩ : MarginBucket).committed) := by
  constructor
  · decide
  · decide

/-- C2 (amended): whenever `calculate_uncommittable_amount` returns `Ok v`,
the bucket's equity at the same mark price is also `Ok` and `v ≤ equity`
(the code computes `equity.saturating_sub(required_collateral)`); the bound
`v ≤ committed` claimed by the spec does not hold in general. -/
theorem c2_uncommittable_le_equity (b : MarginBucket) (mark im v : Nat)
    (h : calculate_uncommittable_amount b mark im = .ok v) :
    ∃ e, calc_equity b mark = .ok e ∧ v ≤ e := by
  unfold calculate_uncommittable_amount at h
  obtain ⟨n, hn, h⟩ := except_bind_ok_inv h
  obtain ⟨s, hs, h⟩ := except_bind_ok_inv h
  obtain ⟨rc, hrc, h⟩ := except_bind_ok_inv h
  obtain ⟨e, he, h⟩ := except_bind_ok_inv h
  simp only [Except.ok.injEq] at h
  exact ⟨e, he, by omega⟩

/-- C2 (witness): the amended theorem applied to an empty-position bucket
with `committed = 10` at mark price 5. -/
theorem c2_witness :
    ∃ e, calc_equity (⟨.marketIsolated 1, 0, 10, 0, 0, 0, 0, 0⟩ : MarginBucket) 5 = .ok e
      ∧ 10 ≤ e :=
  c2_uncommittable_le_equity ⟨.marketIsolated 1, 0, 10, 0, 0, 0, 0, 0⟩ 5 0 10 (by decide)

/-- C3 (counterexample): in the source's declaration order `Noop` precedes
`Faucet`, so Borsh assigns `Noop` the discriminant 7 and `Faucet` the
discriminant 8, not the other way around as the claim states. -/
theorem c3_counterexample :
    (permitActionEncode .Noop).head? = some 7
    ∧ (permitActionEncode (.Faucet 1 2 3)).head? = some 8
    ∧ ¬ (permitActionEncode .Noop).head? = some 8
    ∧ ¬ (permitActionEncode (.Faucet 1 2 3)).head? = some 7 := by
  refine ⟨rfl, rfl, by decide, by decide⟩

/-- C3 (amended): the Borsh encoding of `PermitAction` starts with a 1-byte
discriminant equal to the variant's index in the *code's* declaration order:
Place = 0, CancelById = 1, CancelByClientId = 2, CancelAll = 3, Modify = 4,
Withdraw = 5, SetLeverage = 6, Noop = 7, Faucet = 8 (the spec's listing puts
Faucet before Noop, which does not match the code). -/
theorem c3_permit_action_discriminants :
    (∀ mid cid side qty price tif ro tp tt hf,
      (permitActionEncode (.Place mid cid side qty price tif ro tp tt hf)).head? = some 0)
    ∧ (∀ mid oid, (permitActionEncode (.CancelById mid oid)).head? = some 1)
    ∧ (∀ mid cid, (permitActionEncode (.CancelByClientId mid cid)).head? = some 2)
    ∧ (∀ mid, (permitActionEncode (.CancelAll mid)).head? = some 3)
    ∧ (∀ mid coid ncid side qty price tif ro tp tt hf,
      (permitActionEncode (.Modify mid coid ncid side qty price tif ro tp tt hf)).head?
        = some 4)
    ∧ (∀ amount owner hf,
      (permitActionEncode (.Withdraw amount owner hf)).head? = some 5)
    ∧ (∀ mid bps hf, (permitActionEncode (.SetLeverage mid bps hf)).head? = some 6)
    ∧ ((permitActionEncode .Noop).head? = some 7)
    ∧ (∀ mid amount recipient,
      (permitActionEncode (.Faucet mid amount recipient)).head? = some 8) := by
  refine ⟨?_, ?_, ?_, ?_, ?_, ?_, ?_, ?_, ?_⟩ <;> intros <;> rfl

/-- C4: `insert_nonce` implements the three-step window algorithm — reject a
nonce already in `top`; below capacity append, sort ascending and accept;
at capacity reject `n ≤ top[0]` and otherwise overwrite `top[0]`, re-sort and
accept — and on the `k = 3` scenario `100, 200, 150, 300, 140, 200` yields
accept, accept, accept, accept, reject, reject with final top
`{150, 200, 300}`. -/
theorem c4_insert_nonce_window :
    (∀ w n, n ∈ w.top → insert_nonce w n = .returns (.error "Nonce already used"))
    ∧ (∀ w n, n ∉ w.top → w.top.length < w.k →
        insert_nonce w n = .returns (.ok { w with top := sortNat (w.top ++ [n]) }))
    ∧ (∀ w n smallest rest, n ∉ w.top → ¬ w.top.length < w.k →
        w.top = smallest :: rest →
        (n ≤ smallest →
          insert_nonce w n = .returns (.error "Nonce too small for window"))
        ∧ (smallest < n →
          insert_nonce w n = .returns (.ok { w with top := sortNat (n :: rest) })))
    ∧ (insert_nonce ⟨0, 3, [], 0⟩ 100 = .returns (.ok ⟨0, 3, [100], 0⟩)
      ∧ insert_nonce ⟨0, 3, [100], 0⟩ 200 = .returns (.ok ⟨0, 3, [100, 200], 0⟩)
      ∧ insert_nonce ⟨0, 3, [100, 200], 0⟩ 150 = .returns (.ok ⟨0, 3, [100, 150, 200], 0⟩)
      ∧ insert_nonce ⟨0, 3, [100, 150, 200], 0⟩ 300 = .returns (.ok ⟨0, 3, [150, 200, 300], 0⟩)
      ∧ insert_nonce ⟨0, 3, [150, 200, 300], 0⟩ 140
          = .returns (.error "Nonce too small for window")
      ∧ insert_nonce ⟨0, 3, [150, 200, 300], 0⟩ 200
          = .returns (.error "Nonce already used")) := by
  refine ⟨?_, ?_, ?_, ?_⟩
  · intro w n h
    simp [insert_nonce, h]
  · intro w n h1 h2
    simp [insert_nonce, h1, h2]
  · intro w n smallest rest h1 h2 htop
    have h1' : ¬ (n = smallest ∨ n ∈ rest) := by
      rw [htop] at h1
      simpa using h1
    have h2' : ¬ rest.length + 1 < w.k := by
      rw [htop] at h2
      simpa using h2
    constructor
    · intro hle
      simp [insert_nonce, h1', h2', htop, hle]
    · intro hgt
      have hnle : ¬ n ≤ smallest := by omega
      simp [insert_nonce, h1', h2', htop, hnle]
  · refine ⟨by decide, by decide, by decide, by decide, by decide, by decide⟩

/-- C4 (witness): the first clause of the theorem applied to a window already
containing the nonce 5. -/
theorem c4_witness :
    (5 : Nat) ∈ ([5] : List Nat)
    ∧ insert_nonce ⟨0, 1, [5], 0⟩ 5 = .returns (.error "Nonce already used") :=
  ⟨by decide, c4_insert_nonce_window.1 ⟨0, 1, [5], 0⟩ 5 (by decide)⟩

theorem fill_order_update_invariant (o : OrderDetails) (fq : Nat)
    (hle : o.filled_qty ≤ o.qty) (hlt : o.qty < u64Mod)
    (hfq : fq ≤ o.qty - o.filled_qty) :
    (fill_order_update o fq).filled_qty ≤ (fill_order_update o fq).qty
    ∧ ((fill_order_update o fq).filled_qty = (fill_order_update o fq).qty →
        (fill_order_update o fq).tombstone = .Filled) := by
  have hnf : (o.filled_qty + fq) % u64Mod = o.filled_qty + fq :=
    Nat.mod_eq_of_lt (by omega)
  constructor
  · show (o.filled_qty + fq) % u64Mod ≤ o.qty
    rw [hnf]; omega
  · intro h
    have h' : (o.filled_qty + fq) % u64Mod = o.qty := h
    show (if o.qty ≤ (o.filled_qty + fq) % u64Mod then OrderTombstone.Filled
          else o.tombstone) = .Filled
    rw [if_pos (le_of_eq h'.symm)]

/-- C5 (counterexample): `OrderDetailStorage::fill_order` adds `fill_qty`
with no overfill check: filling 20 into an open order with `qty = 10`,
`filled_qty = 0` succeeds, leaving `filled_qty = 20 > qty = 10` (with the
tombstone set to `Filled`), so the invariant `filled_qty ≤ qty` is not
preserved by every mutating operation. -/
theorem c5_counterexample :
    fill_order
        ⟨10, 1, [⟨1, .Bid, 10, 0, .Market, .User, .Off, .PositionSizePercent 0,
          .Off, .Off, .Off, .Open, ⟨0, 0, 0, 0, false, 0, 0, 0, 0, 0, 0, 0⟩, ⟨0, 0⟩⟩]⟩ 1 20
      = .ok ⟨10, 1, [⟨1, .Bid, 10, 20, .Market, .User, .Off, .PositionSizePercent 0,
          .Off, .Off, .Off, .Filled, ⟨0, 0, 0, 0, false, 0, 0, 0, 0, 0, 0, 0⟩, ⟨0, 0⟩⟩]⟩
    ∧ ¬ ((20 : Nat) ≤ 10) := by
  constructor
  · decide
  · decide

/-- C5 (amended): `OrderDetails::process_fill` preserves `filled_qty ≤ qty`
and sets the tombstone to `Filled` exactly when the post-state reaches
`filled_qty = qty`; `OrderDetailStorage::fill_order` (which adds the fill
quantity unchecked) preserves the invariant only under the additional
precondition that the fill quantity does not exceed any order's remaining
quantity, and then also maintains the tombstone clause across the storage. -/
theorem c5_fill_preserves_invariant :
    (∀ (o : OrderDetails) (fq fp : Nat) (ts : Int) (o' : OrderDetails) (r : OrderFillResult),
        o.filled_qty ≤ o.qty → o.qty < u64Mod →
        OrderDetails.process_fill o fq fp ts = .ok (o', r) →
        o'.filled_qty ≤ o'.qty
        ∧ (o'.filled_qty = o'.qty → o'.tombstone = .Filled))
    ∧ (∀ (o : OrderDetails) (fq : Nat),
        o.filled_qty ≤ o.qty → o.qty < u64Mod → fq ≤ o.qty - o.filled_qty →
        (fill_order_update o fq).filled_qty ≤ (fill_order_update o fq).qty
        ∧ ((fill_order_update o fq).filled_qty = (fill_order_update o fq).qty →
            (fill_order_update o fq).tombstone = .Filled))
    ∧ (∀ (st : OrderDetailStorage) (order_id fq : Nat) (st' : OrderDetailStorage),
        (∀ i, i < st.total_inserted → ∀ o, st.orders[i]? = some o →
          o.filled_qty ≤ o.qty ∧ o.qty < u64Mod
          ∧ fq ≤ o.qty - o.filled_qty
          ∧ (o.filled_qty = o.qty → o.tombstone = .Filled)) →
        fill_order st order_id fq = .ok st' →
        st'.total_inserted = st.total_inserted
        ∧ ∀ i, i < st'.total_inserted → ∀ o', st'.orders[i]? = some o' →
            o'.filled_qty ≤ o'.qty
            ∧ (o'.filled_qty = o'.qty → o'.tombstone = .Filled)) := by
  refine ⟨?_, ?_, ?_⟩
  · intro o fq fp ts o' r hle hlt h
    unfold OrderDetails.process_fill at h
    split_ifs at h with h1 h2 <;>
      first
      | (have hrem : fq ≤ o.qty - o.filled_qty := by
           unfold OrderDetails.unfilled_qty at h2
           omega
         have hnf : (o.filled_qty + fq) % u64Mod = o.filled_qty + fq :=
           Nat.mod_eq_of_lt (by omega)
         simp only [Except.ok.injEq, Prod.mk.injEq] at h
         obtain ⟨ho, -⟩ := h
         subst ho
         refine ⟨?_, ?_⟩
         · show (o.filled_qty + fq) % u64Mod ≤ o.qty
           rw [hnf]
           omega
         · intro hfull
           have hfull' : (o.filled_qty + fq) % u64Mod = o.qty := hfull
           rw [hnf] at hfull'
           show (if decide (o.qty ≤ (o.filled_qty + fq) % u64Mod) = true
                 then OrderTombstone.Filled else o.tombstone) = .Filled
           rw [if_pos (by simp only [decide_eq_true_eq]; rw [hnf]; omega)])
  · intro o fq hle hlt hfq
    exact fill_order_update_invariant o fq hle hlt hfq
  · intro st order_id fq st' hinv h
    unfold fill_order at h
    split at h
    · cases h
    · rename_i i0 hfind
      split at h
      · cases h
      · rename_i o hget
        simp only [Except.ok.injEq] at h
        subst h
        have hi0 : i0 < st.total_inserted :=
          List.mem_range.1 (List.mem_of_find?_eq_some hfind)
        refine ⟨rfl, ?_⟩
        intro i hi o' ho'
        have hi' : i < st.total_inserted := hi
        have ho2 : (st.orders.set i0 (fill_order_update o fq))[i]? = some o' := ho'
        by_cases hcase : i = i0
        · subst hcase
          obtain ⟨hlen, -⟩ := List.getElem?_eq_some_iff.1 hget
          rw [List.getElem?_set_eq_of_lt _ hlen] at ho2
          obtain rfl : fill_order_update o fq = o' := Option.some.inj ho2
          obtain ⟨ha, hb, hc, -⟩ := hinv i hi' o hget
          exact fill_order_update_invariant o fq ha hb hc
        · rw [List.getElem?_set_ne (Ne.symm hcase)] at ho2
          obtain ⟨ha, -, -, hd⟩ := hinv i hi' o' ho2
          exact ⟨ha, hd⟩

/-- C5 (witness): the per-order clauses of the theorem applied to an open
order with `qty = 10`, `filled_qty = 0` receiving a full fill of 10. -/
theorem c5_witness :
    ((0 : Nat) ≤ 10 ∧ (10 : Nat) < u64Mod ∧ (10 : Nat) ≤ 10 - 0)
    ∧ ((fill_order_update
          ⟨1, .Bid, 10, 0, .Market, .User, .Off, .PositionSizePercent 0,
            .Off, .Off, .Off, .Open, ⟨0, 0, 0, 0, false, 0, 0, 0, 0, 0, 0, 0⟩, ⟨0, 0⟩⟩
          10).filled_qty
        ≤ (fill_order_update
          ⟨1, .Bid, 10, 0, .Market, .User, .Off, .PositionSizePercent 0,
            .Off, .Off, .Off, .Open, ⟨0, 0, 0, 0, false, 0, 0, 0, 0, 0, 0, 0⟩, ⟨0, 0⟩⟩
          10).qty) :=
  ⟨⟨by decide, by decide, by decide⟩,
    (c5_fill_preserves_invariant.2.1
      ⟨1, .Bid, 10, 0, .Market, .User, .Off, .PositionSizePercent 0,
        .Off, .Off, .Off, .Open, ⟨0, 0, 0, 0, false, 0, 0, 0, 0, 0, 0, 0⟩, ⟨0, 0⟩⟩
      10 (by decide) (by decide) (by decide)).1⟩

/-- C6: applying realized PnL to `committed` in
`CrossMarginAccountV1::process_fill` follows the soft-clamp rule: a positive
realized PnL is added with a checked addition (arithmetic-overflow error on
overflow, in which case no updated state is produced and `committed` is
unchanged), and a negative realized PnL saturates at zero — the call still
succeeds, the new `committed` is `max 0 (committed + pnl)` as an integer,
and a loss exceeding `committed` yields exactly 0; `committed` (a `u64`)
never becomes negative. -/
theorem c6_process_fill_committed_soft_clamp
    (cma : CrossMarginAccountV1) (market_id : Nat) (side : OrderSide)
    (qty price mint : Nat) (i : Nat) (b : MarginBucket) (fr : FillResult)
    (hidx : findBucketIdx cma market_id mint = some i)
    (hget : cma.buckets[i]? = some b)
    (hpos : process_fill b.net_position b.avg_entry_price ⟨side, qty, price⟩ = .ok fr) :
    (0 < fr.realized_pnl → b.committed + fr.realized_pnl.toNat < u64Mod →
      ∃ cma' res, CrossMarginAccountV1.process_fill cma market_id side qty price mint
          = .ok (cma', res)
        ∧ ∃ b', cma'.buckets[i]? = some b'
            ∧ b'.committed = b.committed + fr.realized_pnl.toNat)
    ∧ (0 < fr.realized_pnl → u64Mod ≤ b.committed + fr.realized_pnl.toNat →
        CrossMarginAccountV1.process_fill cma market_id side qty price mint
          = .error .arithmeticOverflow)
    ∧ (fr.realized_pnl < 0 →
        ∃ cma' res, CrossMarginAccountV1.process_fill cma market_id side qty price mint
            = .ok (cma', res)
          ∧ ∃ b', cma'.buckets[i]? = some b'
              ∧ (b'.committed : Int) = max 0 ((b.committed : Int) + fr.realized_pnl)
              ∧ (b.committed < fr.realized_pnl.natAbs → b'.committed = 0)) := by
  obtain ⟨hlen, -⟩ := List.getElem?_eq_some_iff.1 hget
  have key : ∀ x : MarginBucket, (cma.buckets.set i x)[i]? = some x := fun x =>
    List.getElem?_set_eq_of_lt x hlen
  refine ⟨?_, ?_, ?_⟩
  · intro hpnl hov
    have h1 : fr.realized_pnl ≠ 0 := by omega
    have hadd : ∀ x : Nat, x = b.committed →
        checkedAddU64 x fr.realized_pnl.toNat = .ok (b.committed + fr.realized_pnl.toNat) := by
      intro x hx
      subst hx
      simp [checkedAddU64, hov]
    cases side <;>
      (unfold CrossMarginAccountV1.process_fill
       simp only [hidx, hget, hpos, except_bind_ok]
       rw [if_pos h1, if_pos hpnl, hadd _ rfl]
       simp only [except_bind_ok]
       exact ⟨_, _, rfl, _, key _, rfl⟩)
  · intro hpnl hov
    have h1 : fr.realized_pnl ≠ 0 := by omega
    have hadd : ∀ x : Nat, x = b.committed →
        checkedAddU64 x fr.realized_pnl.toNat = .error .arithmeticOverflow := by
      intro x hx
      subst hx
      simp [checkedAddU64]
      omega
    cases side <;>
      (unfold CrossMarginAccountV1.process_fill
       simp only [hidx, hget, hpos, except_bind_ok]
       rw [if_pos h1, if_pos hpnl, hadd _ rfl]
       rfl)
  · intro hpnl
    have h1 : fr.realized_pnl ≠ 0 := by omega
    have h2 : ¬ fr.realized_pnl > 0 := by omega
    by_cases hc : b.committed < (-fr.realized_pnl).toNat
    · cases side <;>
        (unfold CrossMarginAccountV1.process_fill
         simp only [hidx, hget, hpos, except_bind_ok]
         rw [if_pos h1, if_neg h2]
         simp only [hc, if_true, except_bind_ok]
         refine ⟨_, _, rfl, _, key _, ?_, ?_⟩
         · show ((0 : Nat) : Int) = max 0 ((b.committed : Int) + fr.realized_pnl)
           omega
         · intro _
           rfl)
    · cases side <;>
        (unfold CrossMarginAccountV1.process_fill
         simp only [hidx, hget, hpos, except_bind_ok]
         rw [if_pos h1, if_neg h2]
         simp only [hc, if_false, except_bind_ok]
         refine ⟨_, _, rfl, _, key _, ?_, ?_⟩
         · show ((b.committed - (-fr.realized_pnl).toNat : Nat) : Int)
             = max 0 ((b.committed : Int) + fr.realized_pnl)
           omega
         · intro hcon
           exfalso
           omega)

/-- C6 (witness): scenario S3 of the spec — a realized loss of 50000 against
`committed = 500` clamps `committed` to exactly 0 while the call succeeds. -/
theorem c6_witness :
    ∃ cma' res, CrossMarginAccountV1.process_fill
        ⟨0, [], [⟨.marketIsolated 1, 7, 500, 100000000, 0, 100000000, 100000, 0⟩]⟩
        1 .Ask 100000000 50000 7 = .ok (cma', res)
      ∧ ∃ b', cma'.buckets[0]? = some b'
          ∧ (b'.committed : Int)
              = max 0 (((⟨.marketIsolated 1, 7, 500, 100000000, 0, 100000000, 100000,
                  0⟩ : MarginBucket).committed : Int)
                + (⟨0, 0, -50000⟩ : FillResult).realized_pnl)
          ∧ ((⟨.marketIsolated 1, 7, 500, 100000000, 0, 100000000, 100000,
                0⟩ : MarginBucket).committed
              < (⟨0, 0, -50000⟩ : FillResult).realized_pnl.natAbs → b'.committed = 0) :=
  (c6_process_fill_committed_soft_clamp
    ⟨0, [], [⟨.marketIsolated 1, 7, 500, 100000000, 0, 100000000, 100000, 0⟩]⟩
    1 .Ask 100000000 50000 7 0
    ⟨.marketIsolated 1, 7, 500, 100000000, 0, 100000000, 100000, 0⟩
    ⟨0, 0, -50000⟩ (by decide) (by decide) (by decide)).2.2 (by decide)

@[simp]
theorem except_bind_ok_explicit {ε α β : Type} (a : α) (g : α → Except ε β) :
    (Except.ok a).bind g = g a := rfl

@[simp]
theorem except_bind_error_explicit {ε α β : Type} (e : ε) (g : α → Except ε β) :
    (Except.error e : Except ε α).bind g = .error e := rfl

theorem checkedAddU64_ok {a c x : Nat} (h : checkedAddU64 a c = .ok x) :
    x = a + c ∧ a + c < u64Mod := by
  unfold checkedAddU64 at h
  split_ifs at h <;> simp_all

/-- C7: `validate_and_update_open_order_qty` fails with `InvalidArgument`
when `max_user_oi_size > 0` and the clamped worst-case usage exceeds it;
otherwise fails with `InsufficientFunds` when equity is below the required
margin (with effective IM = max of market and user IM, inside
`calc_required_margin`); otherwise it performs exactly
`update_open_order_qty`, which adds `qty` into the side's open quantity with
a checked addition; every successful result changes only that open quantity
and leaves `committed`, `net_position`, `avg_entry_price` (and the other
side's open quantity) unchanged — and the functional embedding produces no
state at all on the error paths. -/
theorem c7_validate_and_update_open_order_qty (b : MarginBucket) (m : MarketStateV1)
    (side : OrderSide) (qty w rm eq : Nat)
    (hw : worst_case_direction_add b side qty = .ok w)
    (hrm : calc_required_margin b m.last_mark_price m.im_bps w = .ok rm)
    (heq : calc_equity b m.last_mark_price = .ok eq) :
    (0 < m.max_user_oi_size → m.max_user_oi_size < w →
        validate_and_update_open_order_qty b m side qty = .error .invalidArgument)
    ∧ (¬ (0 < m.max_user_oi_size ∧ m.max_user_oi_size < w) → eq < rm →
        validate_and_update_open_order_qty b m side qty = .error .insufficientFunds)
    ∧ (¬ (0 < m.max_user_oi_size ∧ m.max_user_oi_size < w) → ¬ eq < rm →
        validate_and_update_open_order_qty b m side qty = update_open_order_qty b side qty)
    ∧ (∀ b', validate_and_update_open_order_qty b m side qty = .ok b' →
        b'.committed = b.committed ∧ b'.net_position = b.net_position
        ∧ b'.avg_entry_price = b.avg_entry_price
        ∧ b'.user_set_im_bps = b.user_set_im_bps
        ∧ (side = .Bid → b'.open_bid_qty = b.open_bid_qty + qty
            ∧ b'.open_ask_qty = b.open_ask_qty)
        ∧ (side = .Ask → b'.open_ask_qty = b.open_ask_qty + qty
            ∧ b'.open_bid_qty = b.open_bid_qty)) := by
  have hrm' : calc_required_margin_mkt b m w = .ok rm := hrm
  have hred3 : ¬ (0 < m.max_user_oi_size ∧ m.max_user_oi_size < w) → ¬ eq < rm →
      validate_and_update_open_order_qty b m side qty = update_open_order_qty b side qty := by
    intro hc1 hc2
    unfold validate_and_update_open_order_qty
    simp only [hw, except_bind_ok]
    rw [if_neg hc1]
    simp only [hrm', heq, except_bind_ok]
    rw [if_neg hc2]
  refine ⟨?_, ?_, hred3, ?_⟩
  · intro h1 h2
    unfold validate_and_update_open_order_qty
    simp only [hw, except_bind_ok]
    rw [if_pos ⟨h1, h2⟩]
  · intro hc1 h2
    unfold validate_and_update_open_order_qty
    simp only [hw, except_bind_ok]
    rw [if_neg hc1]
    simp only [hrm', heq, except_bind_ok]
    rw [if_pos h2]
  · intro b' hok
    by_cases hc1 : 0 < m.max_user_oi_size ∧ m.max_user_oi_size < w
    · have herr : validate_and_update_open_order_qty b m side qty = .error .invalidArgument := by
        unfold validate_and_update_open_order_qty
        simp only [hw, except_bind_ok]
        rw [if_pos hc1]
      rw [herr] at hok
      cases hok
    · by_cases hc2 : eq < rm
      · have herr : validate_and_update_open_order_qty b m side qty
            = .error .insufficientFunds := by
          unfold validate_and_update_open_order_qty
          simp only [hw, except_bind_ok]
          rw [if_neg hc1]
          simp only [hrm', heq, except_bind_ok]
          rw [if_pos hc2]
        rw [herr] at hok
        cases hok
      · rw [hred3 hc1 hc2] at hok
        unfold update_open_order_qty at hok
        cases side
        · cases hadd : checkedAddU64 b.open_bid_qty qty with
          | ok x =>
            rw [hadd] at hok
            simp only [except_bind_ok_explicit, Except.ok.injEq] at hok
            subst hok
            obtain ⟨hx, -⟩ := checkedAddU64_ok hadd
            subst hx
            refine ⟨rfl, rfl, rfl, rfl, fun _ => ⟨rfl, rfl⟩, fun hcon => ?_⟩
            cases hcon
          | error e => rw [hadd] at hok; cases hok
        · cases hadd : checkedAddU64 b.open_ask_qty qty with
          | ok x =>
            rw [hadd] at hok
            simp only [except_bind_ok_explicit, Except.ok.injEq] at hok
            subst hok
            obtain ⟨hx, -⟩ := checkedAddU64_ok hadd
            subst hx
            refine ⟨rfl, rfl, rfl, rfl, fun hcon => ?_, fun _ => ⟨rfl, rfl⟩⟩
            cases hcon
          | error e => rw [hadd] at hok; cases hok

/-- C7 (witness): the no-cap, sufficient-margin path on scenario S1 of the
spec — committed 10_000_000, mark 100_000, IM 1000 bps, Bid 5_000_000 —
reduces to the reservation update. -/
theorem c7_witness :
    validate_and_update_open_order_qty
        ⟨.marketIsolated 1, 7, 10000000, 0, 0, 0, 0, 0⟩
        ⟨0, 7, 1, 0, 0, 100000, 0, 0, 0, 0, 0, 1000, 500, 0, 0, 0, 0⟩ .Bid 5000000
      = update_open_order_qty ⟨.marketIsolated 1, 7, 10000000, 0, 0, 0, 0, 0⟩ .Bid 5000000 :=
  (c7_validate_and_update_open_order_qty
    ⟨.marketIsolated 1, 7, 10000000, 0, 0, 0, 0, 0⟩
    ⟨0, 7, 1, 0, 0, 100000, 0, 0, 0, 0, 0, 1000, 500, 0, 0, 0, 0⟩ .Bid 5000000
    5000000 500 10000000 (by decide) (by decide) (by decide)).2.2.1
    (by decide) (by decide)

/-- C8: for every valid log state (entry count within capacity, body large
enough for the declared capacity) and an entry serialization fitting its
slot: a full log fails with `LogFull` leaving the bytes unchanged; otherwise
the append writes the entry at offset `entry_count * entry_size`,
increments `entry_count` by exactly one and changes no other header field;
the bytes of all previous slots (offsets below `entry_count * entry_size`)
are unchanged and the new slot holds the serialized entry; `entry_count`
never decreases across an append. -/
theorem c8_append_log_entry (s : MarketOrderLogState) (ser : List Nat)
    (hcount : s.entry_count ≤ s.capacity)
    (hbody : s.capacity * s.entry_size ≤ s.body.length)
    (hser : ser.length ≤ s.entry_size) :
    (s.capacity ≤ s.entry_count → append_log_entry s ser = (s, some .logFull))
    ∧ (s.entry_count < s.capacity →
        append_log_entry s ser =
          ({ s with
              body := writeBytes s.body (s.entry_count * s.entry_size) ser,
              entry_count := s.entry_count + 1 }, none))
    ∧ (∀ j, j < s.entry_count * s.entry_size →
        (writeBytes s.body (s.entry_count * s.entry_size) ser)[j]? = s.body[j]?)
    ∧ (∀ j, j < ser.length →
        (writeBytes s.body (s.entry_count * s.entry_size) ser)[s.entry_count * s.entry_size + j]?
          = ser[j]?)
    ∧ s.entry_count ≤ (append_log_entry s ser).1.entry_count := by
  have hoff : s.entry_count * s.entry_size ≤ s.body.length := by
    have h1 : s.entry_count * s.entry_size ≤ s.capacity * s.entry_size :=
      Nat.mul_le_mul_right _ hcount
    omega
  have htakelen : (s.body.take (s.entry_count * s.entry_size)).length
      = s.entry_count * s.entry_size := by
    rw [List.length_take]
    omega
  refine ⟨?_, ?_, ?_, ?_, ?_⟩
  · intro hfull
    unfold append_log_entry
    rw [if_pos hfull]
  · intro hlt
    have hb : get_entry_data_bounds s s.entry_count ser.length = none := by
      unfold get_entry_data_bounds
      rw [if_neg (by omega)]
      rw [if_neg (by unfold ORDER_DETAILS_PADDING; omega)]
      rw [if_neg ?hend]
      case hend =>
        have h1 : (s.entry_count + 1) * s.entry_size ≤ s.capacity * s.entry_size :=
          Nat.mul_le_mul_right _ (by omega)
        have h2 : (s.entry_count + 1) * s.entry_size
            = s.entry_count * s.entry_size + s.entry_size := by ring
        omega
    unfold append_log_entry
    rw [if_neg (by omega), hb]
  · intro j hj
    unfold writeBytes
    rw [List.append_assoc, List.getElem?_append_left (by omega),
      List.getElem?_take_of_lt hj]
  · intro j hj
    unfold writeBytes
    rw [List.append_assoc, List.getElem?_append_right (by omega)]
    rw [htakelen]
    have : s.entry_count * s.entry_size + j - s.entry_count * s.entry_size = j := by omega
    rw [this, List.getElem?_append_left hj]
  · unfold append_log_entry
    split_ifs with hfull
    · exact Nat.le_refl _
    · cases hgb : get_entry_data_bounds s s.entry_count ser.length with
      | some e => exact Nat.le_refl _
      | none => simp

/-- C8 (witness): the theorem applied to an empty two-slot log with
`entry_size = 3` and the entry bytes `[1, 2, 3]`. -/
theorem c8_witness :
    append_log_entry ⟨1, 42, 0, 2, 0, 3, [0, 0, 0, 0, 0, 0]⟩ [1, 2, 3]
      = (⟨1, 42, 0, 2, 1, 3, [1, 2, 3, 0, 0, 0]⟩, none) := by
  have h := (c8_append_log_entry ⟨1, 42, 0, 2, 0, 3, [0, 0, 0, 0, 0, 0]⟩ [1, 2, 3]
    (by decide) (by decide) (by decide)).2.1 (by decide)
  exact h.trans (by decide)

/-- C9: for limit orders (`price ≠ 0`) that pass the size checks,
`validate_order_conformance` evaluates `price % tick_size` with no guard on
`tick_size`, so with `tick_size = 0` the remainder-by-zero panics instead of
returning an error; for market orders (`price = 0`) the function is total —
it never panics, for any `tick_size`. -/
theorem c9_validate_order_conformance_tick_zero :
    (∀ (m : MarketStateV1) (qty price : Nat), m.tick_size = 0 → price ≠ 0 →
        m.min_order_size ≤ qty → (m.max_order_size = 0 ∨ qty ≤ m.max_order_size) →
        validate_order_conformance m qty price = .panicked)
    ∧ (∀ (m : MarketStateV1) (qty : Nat), validate_order_conformance m qty 0 ≠ .panicked) := by
  constructor
  · intro m qty price htick hprice hmin hmax
    unfold validate_order_conformance
    rw [if_neg (by omega), if_neg (by omega), if_pos hprice, if_pos htick]
  · intro m qty
    unfold validate_order_conformance
    split_ifs <;> simp_all

/-- C9 (witness): a market with `tick_size = 0` and a nonzero mark price
panics on a conforming limit order at price 7. -/
theorem c9_witness :
    validate_order_conformance ⟨0, 0, 0, 0, 0, 100000, 0, 0, 0, 0, 0, 0, 0, 0, 0, 0, 0⟩ 5 7
      = .panicked :=
  c9_validate_order_conformance_tick_zero.1
    ⟨0, 0, 0, 0, 0, 100000, 0, 0, 0, 0, 0, 0, 0, 0, 0, 0, 0⟩ 5 7
    (by decide) (by decide) (by decide) (by decide)

/-- C10: `OrderStorage::insert` fails (with `StorageFull`, the only
possible error) if and only if the free-slot stack is empty and
`next_free_slot` has reached capacity; it performs no duplicate check, so in
any reachable state with remaining room, inserting a marker whose
`(user, order_id)` is already stored succeeds and leaves two distinct live
slots carrying that `(user, order_id)`, with `count` incremented by one. -/
theorem c10_order_storage_insert :
    (∀ (s : OrderStorage) (order : OrderMarker),
        OrderStorage.insert s order = .error .storageFull ↔
          (s.free_slots = [] ∧ s.capacity ≤ s.next_free_slot))
    ∧ (∀ (s : OrderStorage) (order : OrderMarker) (e : OrderStorageError),
        OrderStorage.insert s order = .error e → e = .storageFull)
    ∧ (∀ (s : OrderStorage) (order m' : OrderMarker) (j : Nat),
        OrderStorageInv s →
        s.orders[j]? = some (some m') →
        m'.user = order.user → m'.order_id = order.order_id →
        ¬ (s.free_slots = [] ∧ s.capacity ≤ s.next_free_slot) →
        ∃ s' idx, OrderStorage.insert s order = .ok (s', idx)
          ∧ s'.count = s.count + 1
          ∧ j ≠ idx
          ∧ s'.orders[j]? = some (some m')
          ∧ s'.orders[idx]? = some (some order)
          ∧ m'.user = order.user ∧ m'.order_id = order.order_id) := by
  refine ⟨?_, ?_, ?_⟩
  · intro s order
    unfold OrderStorage.insert
    cases hlast : s.free_slots.getLast? with
    | some free_index =>
      simp only []
      constructor
      · intro hcon; cases hcon
      · rintro ⟨hnil, -⟩
        rw [hnil] at hlast
        cases hlast
    | none =>
      have hnil : s.free_slots = [] := List.getLast?_eq_none_iff.1 hlast
      split_ifs with hlt
      · constructor
        · intro hcon; cases hcon
        · rintro ⟨-, hge⟩; omega
      · exact ⟨fun _ => ⟨hnil, by omega⟩, fun _ => rfl⟩
  · intro s order e h
    unfold OrderStorage.insert at h
    cases hlast : s.free_slots.getLast? with
    | some free_index => rw [hlast] at h; cases h
    | none =>
      rw [hlast] at h
      split_ifs at h <;>
        first
        | (have h' : (Except.error OrderStorageError.storageFull :
              Except OrderStorageError (OrderStorage × Nat)) = Except.error e := h
           exact (Except.error.inj h').symm)
        | simp at h
  · intro s order m' j hinv hj hu hid hroom
    obtain ⟨hlen, hnext, hfree, hempty⟩ := hinv
    unfold OrderStorage.insert
    cases hlast : s.free_slots.getLast? with
    | some free_index =>
      obtain ⟨hflt, hfnone⟩ := hfree free_index (List.mem_of_getLast?_eq_some hlast)
      have hne : free_index ≠ j := by
        intro hcon
        rw [hcon, hj] at hfnone
        cases (Option.some.inj hfnone)
      refine ⟨_, free_index, rfl, rfl, fun hcon => hne hcon.symm, ?_, ?_, hu, hid⟩
      · show (s.orders.set free_index (some order))[j]? = some (some m')
        rw [List.getElem?_set_ne hne, hj]
      · show (s.orders.set free_index (some order))[free_index]? = some (some order)
        rw [List.getElem?_set_self (by omega)]
    | none =>
      have hnil : s.free_slots = [] := List.getLast?_eq_none_iff.1 hlast
      have hlt : s.next_free_slot < s.capacity := by
        rcases Nat.lt_or_ge s.next_free_slot s.capacity with h | h
        · exact h
        · exact absurd ⟨hnil, h⟩ hroom
      rw [if_pos hlt]
      have hfnone : s.orders[s.next_free_slot]? = some none :=
        hempty s.next_free_slot (Nat.le_refl _) hlt
      have hne : s.next_free_slot ≠ j := by
        intro hcon
        rw [hcon, hj] at hfnone
        cases (Option.some.inj hfnone)
      refine ⟨_, s.next_free_slot, rfl, rfl, fun hcon => hne hcon.symm, ?_, ?_, hu, hid⟩
      · show (s.orders.set s.next_free_slot (some order))[j]? = some (some m')
        rw [List.getElem?_set_ne hne, hj]
      · show (s.orders.set s.next_free_slot (some order))[s.next_free_slot]? = some (some order)
        rw [List.getElem?_set_self (by omega)]

/-- C10 (witness): in a two-slot registry holding the marker
`(user 9, order 5)` in slot 0, inserting the same `(user, order_id)` again
succeeds, leaving two live slots with the same key and `count = 2`. -/
theorem c10_witness :
    ∃ s' idx, OrderStorage.insert
        ⟨2, 1, [], 1, [some ⟨9, 5, 1, 0⟩, none]⟩ ⟨9, 5, 1, 0⟩ = .ok (s', idx)
      ∧ s'.count = 1 + 1
      ∧ 0 ≠ idx
      ∧ s'.orders[0]? = some (some ⟨9, 5, 1, 0⟩)
      ∧ s'.orders[idx]? = some (some ⟨9, 5, 1, 0⟩)
      ∧ (⟨9, 5, 1, 0⟩ : OrderMarker).user = (⟨9, 5, 1, 0⟩ : OrderMarker).user
      ∧ (⟨9, 5, 1, 0⟩ : OrderMarker).order_id = (⟨9, 5, 1, 0⟩ : OrderMarker).order_id :=
  c10_order_storage_insert.2.2
    ⟨2, 1, [], 1, [some ⟨9, 5, 1, 0⟩, none]⟩ ⟨9, 5, 1, 0⟩ ⟨9, 5, 1, 0⟩ 0
    (by
      refine ⟨rfl, by decide, ?_, ?_⟩
      · intro i hi
        cases hi
      · intro j h1 h2
        have h1' : 1 ≤ j := h1
        have h2' : j < 2 := h2
        have hj : j = 1 := by omega
        subst hj
        rfl)
    (by decide) rfl rfl (by decide)

/-- The unit tests of `src/core/src/state/position.rs` replayed against the
embedding of `process_fill`, as evidence of translation fidelity. -/
theorem process_fill_replays_unit_tests :
    process_fill 0 0 ⟨.Bid, 100, 50000⟩ = .ok ⟨100, 50000, 0⟩
    ∧ process_fill 0 0 ⟨.Ask, 100, 50000⟩ = .ok ⟨-100, 50000, 0⟩
    ∧ process_fill 100 50000 ⟨.Bid, 50, 52000⟩ = .ok ⟨150, 50666, 0⟩
    ∧ process_fill 100 50000 ⟨.Ask, 30, 52000⟩ = .ok ⟨70, 50000, 0⟩
    ∧ process_fill 100 50000 ⟨.Ask, 100, 48000⟩ = .ok ⟨0, 0, 0⟩
    ∧ process_fill 100 50000 ⟨.Ask, 150, 51000⟩ = .ok ⟨-50, 51000, 0⟩
    ∧ process_fill (-50) 50000 ⟨.Bid, 20, 48000⟩ = .ok ⟨-30, 50000, 0⟩ := by
  refine ⟨?_, ?_, ?_, ?_, ?_, ?_, ?_⟩ <;> decide

end AmbientEmber
